import Mathlib

/-!
Shallow embedding of the Product Store of `course-api-ia`
(src/src/products/products.service.ts and its DTOs).

Modelling choices:
* `Product` mirrors the `Product` interface (entities/product.entity.ts):
  `id` is an opaque unique identifier — the source uses `randomUUID()`;
  we model id allocation with a counter `nextId` held next to the array,
  so that each `create` issues a value never issued before.
* Timestamps (`new Date()`) are modelled as natural numbers; every
  mutating operation receives the current clock value `now` as an
  explicit argument.
* The service's private array `this.products` becomes the `products`
  field of `Store`; each operation takes the store and returns the new
  store, and a thrown `NotFoundException` becomes `Except.error .notFound`
  paired with the untouched store (the `throw` in the source happens
  before any assignment to `this.products`).
* `price` and `stock` are modelled as integers (`Int`): the claims only
  exercise sign conditions on them.
* Validation of `CreateProductDto` (class-validator decorators in the
  DTO, applied by the global `ValidationPipe` of main.ts) is embedded as
  the boolean `CreateProductDto.isValid`; `createValidated` composes the
  pipe with the service method as the HTTP adapter does.
-/

namespace CourseApi

/-- The `Product` interface of entities/product.entity.ts.
`description` is optional in the create DTO and is spread verbatim into
the record, so it is modelled as `Option String`. -/
structure Product where
  id : Nat
  name : String
  description : Option String
  price : Int
  stock : Int
  isActive : Bool
  createdAt : Nat
  updatedAt : Nat
deriving Repr, DecidableEq

/-- `CreateProductDto` (required name, optional description, required
price and stock). -/
structure CreateProductDto where
  name : String
  description : Option String
  price : Int
  stock : Int
deriving Repr, DecidableEq

/-- `UpdateProductDto = PartialType(CreateProductDto)`: every field
independently optional; `none` means the field is absent from the patch. -/
structure UpdateProductDto where
  name : Option String
  description : Option String
  price : Option Int
  stock : Option Int
deriving Repr, DecidableEq

/-- The empty patch `{}`: no field present. -/
def UpdateProductDto.emptyPatch : UpdateProductDto :=
  { name := none, description := none, price := none, stock := none }

/-- The in-memory state of `ProductsService`: the private `products`
array plus the id-allocation state standing for `randomUUID()`. -/
structure Store where
  products : List Product
  nextId : Nat
deriving Repr, DecidableEq

def Store.empty : Store := { products := [], nextId := 0 }

/-- Error kinds surfaced by the store: `NotFoundException` and the
validation pipe's rejection. -/
inductive Err where
  | notFound
  | invalidArgument
deriving Repr, DecidableEq

/-- The `meta` object of `PaginatedResponseDto`. -/
structure Meta where
  total : Nat
  page : Nat
  limit : Nat
  totalPages : Nat
deriving Repr, DecidableEq

/-- `PaginatedResponseDto<Product>`. -/
structure PaginatedResponse where
  data : List Product
  meta : Meta
deriving Repr, DecidableEq

/-- `Array.prototype.slice(start, stop)` for the in-range indices used
by the service: the elements at indices `[start, stop)` clamped to the
array. -/
def jsSlice (l : List Product) (start stop : Nat) : List Product :=
  (l.take stop).drop start

/-- `Math.ceil(n / m)` for natural `n` and positive natural `m`. -/
def ceilDiv (n m : Nat) : Nat := (n + m - 1) / m

/-- The validation applied to `CreateProductDto` by class-validator:
`@IsNotEmpty` on `name`, `@IsPositive` on `price`, `@Min(0)` on `stock`
(`@IsString` / `@IsNumber` / `@IsInt` are type-level and hold by
construction in the embedding). -/
def CreateProductDto.isValid (dto : CreateProductDto) : Bool :=
  dto.name != "" && decide (0 < dto.price) && decide (0 ≤ dto.stock)

namespace ProductsService

/-- The predicate used by `findOne` / `update` / `remove`:
`p.id === id && p.isActive === true`. -/
def matchesActive (id : Nat) (p : Product) : Bool :=
  p.id == id && p.isActive

/-- `ProductsService.create`: builds the record with a fresh id,
`isActive = true`, `createdAt = updatedAt = now`, and pushes it onto
the array. Total: the service method itself never throws. -/
def create (dto : CreateProductDto) (now : Nat) (s : Store) :
    Product × Store :=
  let product : Product :=
    { id := s.nextId
      name := dto.name
      description := dto.description
      price := dto.price
      stock := dto.stock
      isActive := true
      createdAt := now
      updatedAt := now }
  (product, { products := s.products ++ [product], nextId := s.nextId + 1 })

/-- The global `ValidationPipe` followed by `ProductsService.create`,
as the POST /products route composes them. On invalid input the pipe
rejects before the service runs, so the store is returned unchanged. -/
def createValidated (dto : CreateProductDto) (now : Nat) (s : Store) :
    Except Err Product × Store :=
  if dto.isValid then
    let r := create dto now s
    (Except.ok r.1, r.2)
  else
    (Except.error Err.invalidArgument, s)

/-- `ProductsService.findAll`: filter to active, slice
`[offset, offset + limit)` with `offset = (page - 1) * limit`,
`totalPages = Math.ceil(active.length / limit)`. -/
def findAll (page limit : Nat) (s : Store) : PaginatedResponse :=
  let activeProducts := s.products.filter (fun p => p.isActive)
  let offset := (page - 1) * limit
  let paginatedProducts := jsSlice activeProducts offset (offset + limit)
  let totalPages := ceilDiv activeProducts.length limit
  { data := paginatedProducts
    meta :=
      { total := activeProducts.length
        page := page
        limit := limit
        totalPages := totalPages } }

/-- `ProductsService.findOne`: first record with matching id that is
active, else `NotFoundException`. -/
def findOne (id : Nat) (s : Store) : Except Err Product :=
  match s.products.find? (matchesActive id) with
  | some product => Except.ok product
  | none => Except.error Err.notFound

/-- The object-spread merge of `update`: fields present in the patch
overwrite, absent fields keep the prior value, `updatedAt` is refreshed. -/
def applyPatch (p : Product) (dto : UpdateProductDto) (now : Nat) :
    Product :=
  { p with
    name := dto.name.getD p.name
    description :=
      match dto.description with
      | some d => some d
      | none => p.description
    price := dto.price.getD p.price
    stock := dto.stock.getD p.stock
    updatedAt := now }

/-- `ProductsService.update`: find the index of the first active record
with the id (`findIndex`), throw `NotFoundException` if `-1`, else
replace `this.products[index]` by the merged record. -/
def update (id : Nat) (dto : UpdateProductDto) (now : Nat) (s : Store) :
    Except Err Product × Store :=
  match s.products.findIdx? (matchesActive id) with
  | none => (Except.error Err.notFound, s)
  | some index =>
    match s.products[index]? with
    | none => (Except.error Err.notFound, s)
    | some p =>
      let updated := applyPatch p dto now
      (Except.ok updated,
        { s with products := s.products.set index updated })

/-- `ProductsService.remove`: soft delete — find the index of the first
active record with the id, throw `NotFoundException` if `-1`, else set
`isActive := false` and refresh `updatedAt` in place. -/
def remove (id : Nat) (now : Nat) (s : Store) :
    Except Err Product × Store :=
  match s.products.findIdx? (matchesActive id) with
  | none => (Except.error Err.notFound, s)
  | some index =>
    match s.products[index]? with
    | none => (Except.error Err.notFound, s)
    | some p =>
      let removed : Product := { p with isActive := false, updatedAt := now }
      (Except.ok removed,
        { s with products := s.products.set index removed })

end ProductsService

/-- The active (visible) records of the store, in insertion order —
the filter performed by `findAll`. -/
def activeList (s : Store) : List Product :=
  s.products.filter (fun p => p.isActive)

/-- Timestamp invariant: every record satisfies
`createdAt ≤ updatedAt`, and no timestamp is ahead of the clock `t`. -/
def Store.timeOK (t : Nat) (s : Store) : Prop :=
  ∀ p ∈ s.products, p.createdAt ≤ p.updatedAt ∧ p.updatedAt ≤ t

/-- Id-allocation invariant of the counter model: every id already in
the collection was issued before `nextId`. -/
def Store.freshIds (s : Store) : Prop :=
  ∀ p ∈ s.products, p.id < s.nextId

/-- "Exactly one Product per id": the ids in the collection are
pairwise distinct. -/
def Store.uniqueIds (s : Store) : Prop :=
  (s.products.map Product.id).Nodup

end CourseApi

/-! ## Helper lemmas -/

namespace CourseApi

namespace ProductsService

theorem findIdx?_some_getElem {l : List Product} {pred : Product → Bool}
    {i : Nat} (h : l.findIdx? pred = some i) :
    ∃ p, l[i]? = some p ∧ pred p = true := by
  rw [List.findIdx?_eq_some_iff_getElem] at h
  obtain ⟨hlt, hp, -⟩ := h
  exact ⟨l[i], by simp [hlt], hp⟩

theorem update_of_findIdx_none {id : Nat} {dto : UpdateProductDto}
    {now : Nat} {s : Store}
    (hidx : s.products.findIdx? (matchesActive id) = none) :
    update id dto now s = (Except.error Err.notFound, s) := by
  simp [update, hidx]

theorem update_of_findIdx {id : Nat} (dto : UpdateProductDto) (now : Nat)
    {s : Store} {i : Nat}
    (hidx : s.products.findIdx? (matchesActive id) = some i) :
    ∃ p, s.products[i]? = some p ∧ matchesActive id p = true ∧
      update id dto now s =
        (Except.ok (applyPatch p dto now),
         { s with products := s.products.set i (applyPatch p dto now) }) := by
  obtain ⟨p, hget, hpred⟩ := findIdx?_some_getElem hidx
  exact ⟨p, hget, hpred, by simp [update, hidx, hget]⟩

theorem remove_of_findIdx_none {id : Nat} {now : Nat} {s : Store}
    (hidx : s.products.findIdx? (matchesActive id) = none) :
    remove id now s = (Except.error Err.notFound, s) := by
  simp [remove, hidx]

theorem remove_of_findIdx {id : Nat} (now : Nat) {s : Store} {i : Nat}
    (hidx : s.products.findIdx? (matchesActive id) = some i) :
    ∃ p, s.products[i]? = some p ∧ matchesActive id p = true ∧
      remove id now s =
        (Except.ok { p with isActive := false, updatedAt := now },
         { s with products :=
            s.products.set i { p with isActive := false, updatedAt := now } }) := by
  obtain ⟨p, hget, hpred⟩ := findIdx?_some_getElem hidx
  exact ⟨p, hget, hpred, by simp [remove, hidx, hget]⟩

theorem findOne_ok_find? {id : Nat} {s : Store} {old : Product}
    (h : findOne id s = Except.ok old) :
    s.products.find? (matchesActive id) = some old := by
  unfold findOne at h
  cases hf : s.products.find? (matchesActive id) with
  | none => rw [hf] at h; exact absurd h (by simp)
  | some x => rw [hf] at h; exact congrArg some (Except.ok.inj h)

theorem getElem?_id_inj {l : List Product} {i j : Nat} {a b : Product}
    (hnd : (l.map Product.id).Nodup)
    (hi : l[i]? = some a) (hj : l[j]? = some b) (hab : a.id = b.id) :
    i = j := by
  have hlt : i < (l.map Product.id).length := by
    rw [List.length_map]
    exact (List.getElem?_eq_some_iff.mp hi).1
  refine List.getElem?_inj hlt hnd ?_
  simp [hi, hj, hab]

theorem find?_eq_some_of_findIdx {l : List Product} {pred : Product → Bool} :
    ∀ {i : Nat} {p : Product}, l.findIdx? pred = some i → l[i]? = some p →
      l.find? pred = some p := by
  induction l with
  | nil => intro i p hidx _; simp at hidx
  | cons a as ih =>
    intro i p hidx hget
    rw [List.findIdx?_cons] at hidx
    by_cases ha : pred a
    · rw [if_pos ha] at hidx
      obtain rfl : (0 : Nat) = i := Option.some.inj hidx
      simp only [List.getElem?_cons_zero, Option.some.injEq] at hget
      subst hget
      simp [ha]
    · rw [if_neg ha, List.findIdx?_succ] at hidx
      obtain ⟨j, hj, rfl⟩ := Option.map_eq_some'.mp hidx
      rw [List.getElem?_cons_succ] at hget
      rw [List.find?_cons_of_neg _ ha]
      exact ih hj hget

theorem no_active_after_remove {id now : Nat} {s : Store} {q : Product}
    {s' : Store} (hnd : s.uniqueIds)
    (h : remove id now s = (Except.ok q, s')) :
    ∀ x ∈ s'.products, matchesActive id x = false := by
  cases hidx : s.products.findIdx? (matchesActive id) with
  | none =>
    rw [remove_of_findIdx_none hidx] at h
    exact absurd h (by simp)
  | some i =>
    obtain ⟨p, hget, hpred, heq⟩ := remove_of_findIdx now hidx
    rw [heq] at h
    simp only [Prod.mk.injEq, Except.ok.injEq] at h
    obtain ⟨-, rfl⟩ := h
    intro x hx
    obtain ⟨j, hj⟩ := List.mem_iff_getElem?.mp hx
    simp only at hj
    have hilt : i < s.products.length :=
      (List.getElem?_eq_some_iff.mp hget).1
    by_cases hji : j = i
    · subst hji
      rw [List.getElem?_set_self (by simpa using hilt)] at hj
      obtain rfl := Option.some.inj hj
      simp [matchesActive]
    · rw [List.getElem?_set_ne (fun hij => hji hij.symm)] at hj
      cases hma : matchesActive id x with
      | false => rfl
      | true =>
        exfalso
        have hxid : x.id = id := by
          simp only [matchesActive, Bool.and_eq_true, beq_iff_eq] at hma
          exact hma.1
        have hpid : p.id = id := by
          simp only [matchesActive, Bool.and_eq_true, beq_iff_eq] at hpred
          exact hpred.1
        exact hji (getElem?_id_inj hnd hj hget (hxid.trans hpid.symm))

theorem ceilDiv_zero (L : Nat) : ceilDiv 0 L = 0 := by
  cases L with
  | zero => simp [ceilDiv]
  | succ m =>
    unfold ceilDiv
    exact Nat.div_eq_of_lt (by omega)

theorem ceilDiv_step {L N : Nat} (hL : 0 < L) (hN : 0 < N) :
    ceilDiv N L = ceilDiv (N - L) L + 1 := by
  unfold ceilDiv
  rcases le_or_lt N L with hle | hlt
  · have h1 : N - L = 0 := by omega
    rw [h1]
    have h2 : (0 + L - 1) / L = 0 := Nat.div_eq_of_lt (by omega)
    rw [h2]
    exact Nat.div_eq_of_lt_le (by omega) (by omega)
  · have h3 : N + L - 1 = ((N - L) + L - 1) + L := by omega
    rw [h3, Nat.add_div_right _ hL]

theorem jsSlice_eq_drop_take (l : List Product) (a b : Nat) :
    jsSlice l a (a + b) = (l.drop a).take b := by
  unfold jsSlice
  rw [List.drop_take]
  congr 1
  omega

theorem findAll_data (page limit : Nat) (s : Store) :
    (findAll page limit s).data =
      ((activeList s).drop ((page - 1) * limit)).take limit := by
  unfold findAll activeList
  exact jsSlice_eq_drop_take _ _ _

theorem chunk_flatten {L : Nat} (hL : 0 < L) :
    ∀ (n : Nat) (l : List Product), l.length ≤ n →
      ((List.range (ceilDiv l.length L)).map
        (fun j => (l.drop (j * L)).take L)).flatten = l := by
  intro n
  induction n with
  | zero =>
    intro l hl
    obtain rfl := List.eq_nil_of_length_eq_zero (Nat.le_zero.mp hl)
    simp [ceilDiv_zero]
  | succ n ih =>
    intro l hl
    cases hnil : l with
    | nil => simp [ceilDiv_zero]
    | cons a as =>
      rw [← hnil]
      have hlen : 0 < l.length := by rw [hnil]; simp
      rw [ceilDiv_step hL hlen, List.range_succ_eq_map]
      simp only [List.map_cons, List.map_map, List.flatten_cons,
        Nat.zero_mul, List.drop_zero]
      have hfun :
          (fun j => (l.drop (j * L)).take L) ∘ Nat.succ =
          (fun j => ((l.drop L).drop (j * L)).take L) := by
        funext j
        simp only [Function.comp_apply]
        have hm : Nat.succ j * L = L + j * L := by
          rw [Nat.succ_mul, Nat.add_comm]
        rw [List.drop_drop, hm]
      rw [hfun]
      have hdlen : (l.drop L).length = l.length - L := List.length_drop L l
      have := ih (l.drop L) (by omega)
      rw [hdlen] at this
      rw [this]
      exact List.take_append_drop L l

end ProductsService

end CourseApi

/-! ## Claims -/

namespace CourseApi

namespace ProductsService

/-- C4: for every valid input (non-empty name, price > 0, stock ≥ 0),
`create` never fails and returns a Product whose id is fresh and
distinct from every previously issued id, whose `isActive` is true,
whose `createdAt` equals its `updatedAt` (both the call's clock value),
whose other fields equal the input, and which is appended to the end of
the collection. -/
theorem create_spec (dto : CreateProductDto) (now : Nat) (s : Store)
    (hvalid : dto.isValid = true) (hwf : s.freshIds) :
    ∃ p s', createValidated dto now s = (Except.ok p, s') ∧
      (∀ q ∈ s.products, q.id ≠ p.id) ∧
      p.isActive = true ∧ p.createdAt = now ∧ p.updatedAt = now ∧
      p.name = dto.name ∧ p.description = dto.description ∧
      p.price = dto.price ∧ p.stock = dto.stock ∧
      s'.products = s.products ++ [p] := by
  refine ⟨(create dto now s).1, (create dto now s).2, ?_, ?_, rfl, rfl,
    rfl, rfl, rfl, rfl, rfl, rfl⟩
  · simp [createValidated, hvalid]
  · intro q hq
    exact Nat.ne_of_lt (hwf q hq)

/-- Witness for `create_spec` at a concrete input. -/
theorem create_spec_witness :
    (CreateProductDto.mk "a" none 1 0).isValid = true ∧
    Store.empty.freshIds ∧
    ∃ p s',
      createValidated (CreateProductDto.mk "a" none 1 0) 0 Store.empty =
        (Except.ok p, s') ∧
      (∀ q ∈ Store.empty.products, q.id ≠ p.id) ∧
      p.isActive = true ∧ p.createdAt = 0 ∧ p.updatedAt = 0 ∧
      p.name = "a" ∧ p.description = none ∧ p.price = 1 ∧ p.stock = 0 ∧
      s'.products = Store.empty.products ++ [p] :=
  ⟨by decide, by simp [Store.freshIds, Store.empty],
    create_spec (CreateProductDto.mk "a" none 1 0) 0 Store.empty
      (by decide) (by simp [Store.freshIds, Store.empty])⟩

/-- C7: creating a product with `price = -1` is rejected with
`InvalidArgument` and the store is returned unchanged: no record is
added to the collection. -/
theorem create_invalid_price (dto : CreateProductDto) (now : Nat)
    (s : Store) (hp : dto.price = -1) :
    createValidated dto now s = (Except.error Err.invalidArgument, s) := by
  have hv : dto.isValid = false := by
    unfold CreateProductDto.isValid
    rw [hp]
    simp
  simp [createValidated, hv]

/-- Witness for `create_invalid_price` at a concrete input. -/
theorem create_invalid_price_witness :
    (CreateProductDto.mk "a" none (-1) 0).price = -1 ∧
    createValidated (CreateProductDto.mk "a" none (-1) 0) 0 Store.empty =
      (Except.error Err.invalidArgument, Store.empty) :=
  ⟨rfl, create_invalid_price (CreateProductDto.mk "a" none (-1) 0) 0
    Store.empty rfl⟩

/-- C8: atomicity — whenever `update` or `remove` fails, the error is
`NotFound` and the store is exactly as it was before the call; there is
no partial-failure state (`findOne` is read-only by construction: it
returns no store at all). -/
theorem ops_atomic (id : Nat) (dto : UpdateProductDto) (now : Nat)
    (s : Store) :
    (∀ e, (update id dto now s).1 = Except.error e →
      e = Err.notFound ∧ (update id dto now s).2 = s) ∧
    (∀ e, (remove id now s).1 = Except.error e →
      e = Err.notFound ∧ (remove id now s).2 = s) := by
  constructor
  · intro e he
    cases hidx : s.products.findIdx? (matchesActive id) with
    | none =>
      rw [update_of_findIdx_none hidx] at he
      simp only at he
      rw [update_of_findIdx_none hidx]
      exact ⟨(Except.error.inj he).symm, rfl⟩
    | some i =>
      obtain ⟨p, -, -, heq⟩ := update_of_findIdx dto now hidx
      rw [heq] at he
      exact absurd he (by simp)
  · intro e he
    cases hidx : s.products.findIdx? (matchesActive id) with
    | none =>
      rw [remove_of_findIdx_none hidx] at he
      simp only at he
      rw [remove_of_findIdx_none hidx]
      exact ⟨(Except.error.inj he).symm, rfl⟩
    | some i =>
      obtain ⟨p, -, -, heq⟩ := remove_of_findIdx now hidx
      rw [heq] at he
      exact absurd he (by simp)

/-- Witness for `ops_atomic` at a concrete input (the empty store, where
both `update` and `remove` fail). -/
theorem ops_atomic_witness :
    (Err.notFound = Err.notFound ∧
      (update 0 UpdateProductDto.emptyPatch 0 Store.empty).2 = Store.empty) ∧
    (Err.notFound = Err.notFound ∧
      (remove 0 0 Store.empty).2 = Store.empty) :=
  ⟨(ops_atomic 0 UpdateProductDto.emptyPatch 0 Store.empty).1
      Err.notFound rfl,
    (ops_atomic 0 UpdateProductDto.emptyPatch 0 Store.empty).2
      Err.notFound rfl⟩

/-- C2: calling `remove(id)` twice on the same existing active product
succeeds the first time — returning the record with `isActive = false`
and refreshed `updatedAt` — and fails with `NotFound` the second time:
`remove` is not idempotent. -/
theorem remove_not_idempotent (id t1 t2 : Nat) (s : Store) (p : Product)
    (hnd : s.uniqueIds) (hmem : p ∈ s.products) (hid : p.id = id)
    (hact : p.isActive = true) :
    ∃ q s', remove id t1 s = (Except.ok q, s') ∧
      q.isActive = false ∧ q.updatedAt = t1 ∧
      remove id t2 s' = (Except.error Err.notFound, s') := by
  have hex : ∃ x, x ∈ s.products ∧ matchesActive id x :=
    ⟨p, hmem, by simp [matchesActive, hid, hact]⟩
  have hidx := List.findIdx?_eq_some_of_exists hex
  obtain ⟨r, hget, hpred, heq⟩ := remove_of_findIdx t1 hidx
  refine ⟨_, _, heq, rfl, rfl, ?_⟩
  have hno := no_active_after_remove hnd heq
  exact remove_of_findIdx_none (List.findIdx?_eq_none_iff.mpr hno)

/-- Witness for `remove_not_idempotent` at a concrete one-product store. -/
theorem remove_not_idempotent_witness :
    ∃ q s',
      remove 0 5 (Store.mk [Product.mk 0 "a" none 1 0 true 0 0] 1) =
        (Except.ok q, s') ∧
      q.isActive = false ∧ q.updatedAt = 5 ∧
      remove 0 6 s' = (Except.error Err.notFound, s') :=
  remove_not_idempotent 0 5 6 (Store.mk [Product.mk 0 "a" none 1 0 true 0 0] 1)
    (Product.mk 0 "a" none 1 0 true 0 0)
    (by simp [Store.uniqueIds]) (by simp) rfl rfl

/-- C1: after `remove(id)` succeeds, `findOne(id)` fails with `NotFound`
and no record with that id appears in the `data` of `findAll` for any
page and limit: the soft-deleted record is invisible to all reads. -/
theorem remove_visibility (id now : Nat) (s : Store) (q : Product)
    (s' : Store) (hnd : s.uniqueIds)
    (h : remove id now s = (Except.ok q, s')) :
    findOne id s' = Except.error Err.notFound ∧
    ∀ page limit : Nat, ∀ x ∈ (findAll page limit s').data, x.id ≠ id := by
  have hno := no_active_after_remove hnd h
  constructor
  · unfold findOne
    have hfn : s'.products.find? (matchesActive id) = none :=
      List.find?_eq_none.mpr (fun x hx => by simp [hno x hx])
    rw [hfn]
  · intro page limit x hx hxid
    rw [findAll_data] at hx
    have hx1 : x ∈ activeList s' :=
      List.mem_of_mem_drop (List.mem_of_mem_take hx)
    unfold activeList at hx1
    rw [List.mem_filter] at hx1
    have hcon := hno x hx1.1
    simp [matchesActive, hxid, hx1.2] at hcon

/-- Witness for `remove_visibility` at a concrete one-product store. -/
theorem remove_visibility_witness :
    findOne 0 (Store.mk [Product.mk 0 "a" none 1 0 false 0 5] 1) =
      Except.error Err.notFound ∧
    ∀ page limit : Nat,
      ∀ x ∈ (findAll page limit
        (Store.mk [Product.mk 0 "a" none 1 0 false 0 5] 1)).data,
        x.id ≠ 0 :=
  remove_visibility 0 5 (Store.mk [Product.mk 0 "a" none 1 0 true 0 0] 1)
    (Product.mk 0 "a" none 1 0 false 0 5)
    (Store.mk [Product.mk 0 "a" none 1 0 false 0 5] 1)
    (by simp [Store.uniqueIds]) rfl

/-- C3: for every active product and every patch, `update` overwrites
exactly the fields present in the patch plus `updatedAt`; fields absent
from the patch keep their prior values, and `id`, `createdAt` and
`isActive` are never changed. -/
theorem update_frame (id : Nat) (dto : UpdateProductDto) (now : Nat)
    (s : Store) (old q : Product) (s' : Store)
    (hfind : findOne id s = Except.ok old)
    (hupd : update id dto now s = (Except.ok q, s')) :
    q.id = old.id ∧ q.createdAt = old.createdAt ∧
    q.isActive = old.isActive ∧ q.updatedAt = now ∧
    (dto.name = none → q.name = old.name) ∧
    (∀ v, dto.name = some v → q.name = v) ∧
    (dto.description = none → q.description = old.description) ∧
    (∀ v, dto.description = some v → q.description = some v) ∧
    (dto.price = none → q.price = old.price) ∧
    (∀ v, dto.price = some v → q.price = v) ∧
    (dto.stock = none → q.stock = old.stock) ∧
    (∀ v, dto.stock = some v → q.stock = v) := by
  cases hidx : s.products.findIdx? (matchesActive id) with
  | none =>
    rw [update_of_findIdx_none hidx] at hupd
    exact absurd hupd (by simp)
  | some i =>
    obtain ⟨p, hget, hpred, heq⟩ :=
      update_of_findIdx dto now hidx
    rw [heq] at hupd
    simp only [Prod.mk.injEq, Except.ok.injEq] at hupd
    obtain ⟨hq, -⟩ := hupd
    have hpold : p = old :=
      Option.some.inj ((find?_eq_some_of_findIdx hidx hget).symm.trans
        (findOne_ok_find? hfind))
    subst hpold
    subst hq
    refine ⟨rfl, rfl, rfl, rfl, ?_, ?_, ?_, ?_, ?_, ?_, ?_, ?_⟩ <;>
      intros <;> simp_all [applyPatch]

/-- Witness for `update_frame` at a concrete input: a price-only patch. -/
theorem update_frame_witness :
    ((UpdateProductDto.mk none none (some 7) none).name = none →
      (Product.mk 0 "a" none 7 0 true 0 5).name =
        (Product.mk 0 "a" none 1 0 true 0 0).name) ∧
    (∀ v, (UpdateProductDto.mk none none (some 7) none).price = some v →
      (Product.mk 0 "a" none 7 0 true 0 5).price = v) ∧
    (Product.mk 0 "a" none 7 0 true 0 5).updatedAt = 5 := by
  have h := update_frame 0 (UpdateProductDto.mk none none (some 7) none) 5
    (Store.mk [Product.mk 0 "a" none 1 0 true 0 0] 1)
    (Product.mk 0 "a" none 1 0 true 0 0)
    (Product.mk 0 "a" none 7 0 true 0 5)
    (Store.mk [Product.mk 0 "a" none 7 0 true 0 5] 1)
    rfl rfl
  exact ⟨h.2.2.2.2.1, h.2.2.2.2.2.2.2.2.2.1, h.2.2.2.1⟩

/-- C10: `update(id, {})` with the empty patch on an existing active
product succeeds, refreshes only `updatedAt`, and leaves every other
field of the record and every other record in the collection unchanged. -/
theorem update_empty_patch (id now : Nat) (s : Store) (old : Product)
    (hfind : findOne id s = Except.ok old) :
    ∃ i s', s.products.findIdx? (matchesActive id) = some i ∧
      update id UpdateProductDto.emptyPatch now s =
        (Except.ok { old with updatedAt := now }, s') ∧
      s'.products.length = s.products.length ∧
      s'.products[i]? = some { old with updatedAt := now } ∧
      (∀ j, j ≠ i → s'.products[j]? = s.products[j]?) ∧
      s'.nextId = s.nextId := by
  have hfs := findOne_ok_find? hfind
  have hex : ∃ x, x ∈ s.products ∧ matchesActive id x :=
    ⟨old, List.mem_of_find?_eq_some hfs, List.find?_some hfs⟩
  have hidx := List.findIdx?_eq_some_of_exists hex
  obtain ⟨p, hget, hpred, heq⟩ :=
    update_of_findIdx UpdateProductDto.emptyPatch now hidx
  have hpold : p = old :=
    Option.some.inj ((find?_eq_some_of_findIdx hidx hget).symm.trans hfs)
  rw [hpold] at hget hpred heq
  have happly : applyPatch old UpdateProductDto.emptyPatch now =
      { old with updatedAt := now } := rfl
  have hlt : s.products.findIdx (matchesActive id) < s.products.length :=
    (List.getElem?_eq_some_iff.mp hget).1
  refine ⟨List.findIdx (matchesActive id) s.products,
    Store.mk
      (s.products.set (List.findIdx (matchesActive id) s.products)
        (applyPatch old UpdateProductDto.emptyPatch now))
      s.nextId,
    hidx, ?_, ?_, ?_, ?_, rfl⟩
  · rw [heq, happly]
  · simp
  · rw [List.getElem?_set_self hlt]
    exact congrArg some happly
  · intro j hj
    exact List.getElem?_set_ne (Ne.symm hj)

/-- Witness for `update_empty_patch` at a concrete one-product store. -/
theorem update_empty_patch_witness :
    ∃ i s',
      (Store.mk [Product.mk 0 "a" none 1 0 true 0 0] 1).products.findIdx?
        (matchesActive 0) = some i ∧
      update 0 UpdateProductDto.emptyPatch 9
        (Store.mk [Product.mk 0 "a" none 1 0 true 0 0] 1) =
        (Except.ok { Product.mk 0 "a" none 1 0 true 0 0 with updatedAt := 9 },
          s') ∧
      s'.products.length =
        (Store.mk [Product.mk 0 "a" none 1 0 true 0 0] 1).products.length ∧
      s'.products[i]? =
        some { Product.mk 0 "a" none 1 0 true 0 0 with updatedAt := 9 } ∧
      (∀ j, j ≠ i → s'.products[j]? =
        (Store.mk [Product.mk 0 "a" none 1 0 true 0 0] 1).products[j]?) ∧
      s'.nextId = (Store.mk [Product.mk 0 "a" none 1 0 true 0 0] 1).nextId :=
  update_empty_patch 0 9 (Store.mk [Product.mk 0 "a" none 1 0 true 0 0] 1)
    (Product.mk 0 "a" none 1 0 true 0 0) rfl

/-- C9: for every record in the store and after every operation
(`create`, `update`, `remove`), `updatedAt ≥ createdAt` holds, assuming
the clock supplying `now` is nondecreasing across calls (the store was
built under clock `t`, and the next call's clock `now` satisfies
`t ≤ now`). -/
theorem timestamps_monotone (t now : Nat) (s : Store) (hts : s.timeOK t)
    (hclock : t ≤ now) :
    (∀ dto, ((create dto now s).2).timeOK now) ∧
    (∀ id dto, ((update id dto now s).2).timeOK now) ∧
    (∀ id, ((remove id now s).2).timeOK now) := by
  have hmono : ∀ p ∈ s.products,
      p.createdAt ≤ p.updatedAt ∧ p.updatedAt ≤ now :=
    fun p hp => ⟨(hts p hp).1, le_trans (hts p hp).2 hclock⟩
  refine ⟨?_, ?_, ?_⟩
  · intro dto p hp
    simp only [create, List.mem_append, List.mem_singleton] at hp
    rcases hp with h | h
    · exact hmono p h
    · subst h
      exact ⟨le_refl _, le_refl _⟩
  · intro id dto
    cases hidx : s.products.findIdx? (matchesActive id) with
    | none =>
      rw [update_of_findIdx_none hidx]
      exact fun p hp => hmono p hp
    | some i =>
      obtain ⟨p, hget, hpred, heq⟩ :=
        update_of_findIdx dto now hidx
      rw [heq]
      intro x hx
      rcases List.mem_or_eq_of_mem_set hx with h | h
      · exact hmono x h
      · subst h
        have hpmem : p ∈ s.products := List.getElem?_mem hget
        exact ⟨le_trans (hmono p hpmem).1 (hmono p hpmem).2, le_refl _⟩
  · intro id
    cases hidx : s.products.findIdx? (matchesActive id) with
    | none =>
      rw [remove_of_findIdx_none hidx]
      exact fun p hp => hmono p hp
    | some i =>
      obtain ⟨p, hget, hpred, heq⟩ := remove_of_findIdx now hidx
      rw [heq]
      intro x hx
      rcases List.mem_or_eq_of_mem_set hx with h | h
      · exact hmono x h
      · subst h
        have hpmem : p ∈ s.products := List.getElem?_mem hget
        exact ⟨le_trans (hmono p hpmem).1 (hmono p hpmem).2, le_refl _⟩

/-- Witness for `timestamps_monotone` at a concrete store and clock. -/
theorem timestamps_monotone_witness :
    (∀ dto, ((create dto 7
      (Store.mk [Product.mk 0 "a" none 1 0 true 0 3] 1)).2).timeOK 7) ∧
    (∀ id dto, ((update id dto 7
      (Store.mk [Product.mk 0 "a" none 1 0 true 0 3] 1)).2).timeOK 7) ∧
    (∀ id, ((remove id 7
      (Store.mk [Product.mk 0 "a" none 1 0 true 0 3] 1)).2).timeOK 7) :=
  timestamps_monotone 3 7 (Store.mk [Product.mk 0 "a" none 1 0 true 0 3] 1)
    (by intro p hp; simp at hp; subst hp; simp) (by omega)

/-- C6: `findAll(page, limit)` returns as `data` the elements of the
active-filtered, insertion-ordered collection at indices
`[(page-1)*limit, (page-1)*limit + limit)` clamped to the available
range; an out-of-range page yields an empty `data` array rather than an
error, `meta.total` always counts only active records, and `totalPages`
is 0 when there are no active records. -/
theorem findAll_spec (page limit : Nat) (s : Store) (hpage : 1 ≤ page) :
    (findAll page limit s).data =
      ((activeList s).drop ((page - 1) * limit)).take limit ∧
    ((activeList s).length ≤ (page - 1) * limit →
      (findAll page limit s).data = []) ∧
    (findAll page limit s).meta.total = (activeList s).length ∧
    ((activeList s).length = 0 →
      (findAll page limit s).meta.totalPages = 0) ∧
    (findAll page limit s).meta.page = page ∧
    (findAll page limit s).meta.limit = limit := by
  refine ⟨findAll_data page limit s, ?_, rfl, ?_, rfl, rfl⟩
  · intro hle
    rw [findAll_data, List.drop_eq_nil_of_le hle]
    simp
  · intro h0
    show ceilDiv (activeList s).length limit = 0
    rw [h0, ceilDiv_zero]

/-- Witness for `findAll_spec` at a concrete input (an out-of-range
page on a one-product store). -/
theorem findAll_spec_witness :
    (findAll 3 10 (Store.mk [Product.mk 0 "a" none 1 0 true 0 0] 1)).data =
      ((activeList (Store.mk [Product.mk 0 "a" none 1 0 true 0 0] 1)).drop
        ((3 - 1) * 10)).take 10 ∧
    ((activeList (Store.mk [Product.mk 0 "a" none 1 0 true 0 0] 1)).length ≤
        (3 - 1) * 10 →
      (findAll 3 10
        (Store.mk [Product.mk 0 "a" none 1 0 true 0 0] 1)).data = []) ∧
    (findAll 3 10 (Store.mk [Product.mk 0 "a" none 1 0 true 0 0] 1)).meta.total =
      (activeList (Store.mk [Product.mk 0 "a" none 1 0 true 0 0] 1)).length ∧
    ((activeList (Store.mk [Product.mk 0 "a" none 1 0 true 0 0] 1)).length = 0 →
      (findAll 3 10
        (Store.mk [Product.mk 0 "a" none 1 0 true 0 0] 1)).meta.totalPages = 0) ∧
    (findAll 3 10 (Store.mk [Product.mk 0 "a" none 1 0 true 0 0] 1)).meta.page = 3 ∧
    (findAll 3 10 (Store.mk [Product.mk 0 "a" none 1 0 true 0 0] 1)).meta.limit = 10 :=
  findAll_spec 3 10 (Store.mk [Product.mk 0 "a" none 1 0 true 0 0] 1)
    (by omega)

/-- C5: for a store with `N` active records and `1 ≤ L ≤ 100`,
`findAll(k, L).meta.totalPages = ceil(N / L)` for every `k`, and
concatenating the `data` arrays of pages `1..totalPages` yields exactly
the `N` active records in insertion order, with no duplicates and no
gaps. -/
theorem pagination_coverage (s : Store) (L : Nat) (hL1 : 1 ≤ L)
    (hL2 : L ≤ 100) :
    (∀ k, (findAll k L s).meta.totalPages =
      ceilDiv (activeList s).length L) ∧
    ((List.range (ceilDiv (activeList s).length L)).map
      (fun j => (findAll (j + 1) L s).data)).flatten = activeList s := by
  constructor
  · intro k
    rfl
  · have hmap : (fun j => (findAll (j + 1) L s).data) =
        (fun j => ((activeList s).drop (j * L)).take L) := by
      funext j
      rw [findAll_data]
      simp
    rw [hmap]
    exact chunk_flatten hL1 (activeList s).length (activeList s) (le_refl _)

/-- Witness for `pagination_coverage` at a concrete three-product store
with limit 2. -/
theorem pagination_coverage_witness :
    (∀ k, (findAll k 2 (Store.mk
        [Product.mk 0 "a" none 1 0 true 0 0,
         Product.mk 1 "b" none 1 0 true 0 0,
         Product.mk 2 "c" none 1 0 true 0 0] 3)).meta.totalPages =
      ceilDiv (activeList (Store.mk
        [Product.mk 0 "a" none 1 0 true 0 0,
         Product.mk 1 "b" none 1 0 true 0 0,
         Product.mk 2 "c" none 1 0 true 0 0] 3)).length 2) ∧
    ((List.range (ceilDiv (activeList (Store.mk
        [Product.mk 0 "a" none 1 0 true 0 0,
         Product.mk 1 "b" none 1 0 true 0 0,
         Product.mk 2 "c" none 1 0 true 0 0] 3)).length 2)).map
      (fun j => (findAll (j + 1) 2 (Store.mk
        [Product.mk 0 "a" none 1 0 true 0 0,
         Product.mk 1 "b" none 1 0 true 0 0,
         Product.mk 2 "c" none 1 0 true 0 0] 3)).data)).flatten =
      activeList (Store.mk
        [Product.mk 0 "a" none 1 0 true 0 0,
         Product.mk 1 "b" none 1 0 true 0 0,
         Product.mk 2 "c" none 1 0 true 0 0] 3) :=
  pagination_coverage (Store.mk
    [Product.mk 0 "a" none 1 0 true 0 0,
     Product.mk 1 "b" none 1 0 true 0 0,
     Product.mk 2 "c" none 1 0 true 0 0] 3) 2 (by omega) (by omega)

end ProductsService

end CourseApi
